import Mathlib

/-!
gits3: a content-addressed blob store (local cache + remote bucket).

A shallow embedding of `src/gits3.go` and the properties of its operations.

Conventions of the embedding.

* A Go `string` and a Go `[]byte` are both sequences of bytes; both are `Bytes`, a list of
  natural numbers (a byte is a number below 256).  `string(b)` and `[]byte(s)` are the identity.
* The process's standard input is the byte sequence `ioutil.ReadAll` returns from it.  The
  standard output is the byte sequence written to it, and a write to it can fail.
  `log.Println` output (standard error) is not represented.
* `log.Fatal` is the outcome `Abort.fatal`, a run-time panic (a slice expression out of range)
  the outcome `Abort.panic`.  An operation returns its outcome together with the world it
  leaves behind: nothing is rolled back when an operation aborts.
* The world holds the local file system (regular files by path), the remote bucket (objects by
  key), the faults the environment injects into them, and a record of every file-system and
  bucket call that was made.
* For bulk synchronization the directory tree that the traversal finds is an input (`Node`).
  The channel `paths` is unbuffered: a send of the walker completes only when a worker receives
  it, and the walker waits for ever at a send that no worker receives.  A worker takes the
  offered paths in order.  With one worker, the default, the goroutines hand over in lock step
  and this is the only schedule.
-/

namespace Gits3

set_option maxRecDepth 100000

/-! ## Bytes and strings -/

/-- A Go string or byte slice. -/
abbrev Bytes := List Nat

/-- The bytes of an ASCII literal. -/
def ascii (s : String) : Bytes := s.toList.map Char.toNat

/-- The Go slice expression `s[lo:hi]`: `none` is the run-time panic raised when the bounds are
out of range. -/
def slice (s : Bytes) (lo hi : Nat) : Option Bytes :=
  if lo ≤ hi ∧ hi ≤ s.length then some ((s.drop lo).take (hi - lo)) else none

/-- The Go slice expression `s[lo:]`. -/
def sliceFrom (s : Bytes) (lo : Nat) : Option Bytes :=
  if lo ≤ s.length then some (s.drop lo) else none

/-! ## UTF-8 decoding, as performed by `for _, c := range s` -/

/-- The Unicode replacement character, produced for an invalid encoding. -/
def runeError : Nat := 0xFFFD

/-- Whether `b` lies in `lo..hi`. -/
def inRange (lo hi b : Nat) : Bool := decide (lo ≤ b) && decide (b ≤ hi)

/-- The accepted range of the second byte of an encoding that starts with `b0`. -/
def secondByteRange (b0 : Nat) : Nat × Nat :=
  if b0 = 0xE0 then (0xA0, 0xBF)
  else if b0 = 0xED then (0x80, 0x9F)
  else if b0 = 0xF0 then (0x90, 0xBF)
  else if b0 = 0xF4 then (0x80, 0x8F)
  else (0x80, 0xBF)

/-- Decode the first code point of a non-empty string: the code point and the number of bytes
it takes.  An invalid or truncated encoding yields `runeError` with width 1. -/
def decodeRune (b0 : Nat) (rest : Bytes) : Nat × Nat :=
  if b0 < 0x80 then (b0, 1)
  else if inRange 0xC2 0xDF b0 then
    match rest with
    | b1 :: _ =>
      if inRange 0x80 0xBF b1 then ((b0 % 32) * 64 + b1 % 64, 2) else (runeError, 1)
    | _ => (runeError, 1)
  else if inRange 0xE0 0xEF b0 then
    match rest with
    | b1 :: b2 :: _ =>
      if inRange (secondByteRange b0).1 (secondByteRange b0).2 b1 && inRange 0x80 0xBF b2 then
        ((b0 % 16) * 4096 + (b1 % 64) * 64 + b2 % 64, 3)
      else (runeError, 1)
    | _ => (runeError, 1)
  else if inRange 0xF0 0xF4 b0 then
    match rest with
    | b1 :: b2 :: b3 :: _ =>
      if inRange (secondByteRange b0).1 (secondByteRange b0).2 b1 && inRange 0x80 0xBF b2
          && inRange 0x80 0xBF b3 then
        ((b0 % 8) * 262144 + (b1 % 64) * 4096 + (b2 % 64) * 64 + b3 % 64, 4)
      else (runeError, 1)
    | _ => (runeError, 1)
  else (runeError, 1)

/-- The code points a `range` loop over the string yields, in order.  `skip` counts the bytes
of the current code point that are still to be stepped over. -/
def runesFrom : Nat → Bytes → List Nat
  | _, [] => []
  | skip + 1, _ :: rest => runesFrom skip rest
  | 0, b0 :: rest => (decodeRune b0 rest).1 :: runesFrom ((decodeRune b0 rest).2 - 1) rest

/-- The code points of a string, as `range` yields them. -/
def runes (s : Bytes) : List Nat := runesFrom 0 s

/-! ## Digest -/

/-- A lowercase hexadecimal digit: `'0'..'9'` or `'a'..'f'`. -/
def isHexDigit (c : Nat) : Bool :=
  (decide (48 ≤ c) && decide (c ≤ 57)) || (decide (97 ≤ c) && decide (c ≤ 102))

/-- Function `isValidHash`: the length test, then the loop over the code points of the
string, which returns false at the first one that is not a lowercase hexadecimal digit. -/
def isValidHash (hex : Bytes) : Bool :=
  if hex.length ≠ 40 then false
  else (runes hex).all isHexDigit

/-- Rotate a 32-bit word left by `n` bits. -/
def rotl32 (x n : Nat) : Nat := ((x <<< n) % 4294967296) ||| (x >>> (32 - n))

/-- The chaining value of SHA-1: five 32-bit words. -/
structure Sha1State where
  h0 : Nat
  h1 : Nat
  h2 : Nat
  h3 : Nat
  h4 : Nat
deriving DecidableEq

/-- The initial chaining value. -/
def sha1Init : Sha1State := ⟨0x67452301, 0xEFCDAB89, 0x98BADCFE, 0x10325476, 0xC3D2E1F0⟩

/-- The round function and round constant of round `t`. -/
def sha1Round (t b c d : Nat) : Nat × Nat :=
  if t < 20 then (((b &&& c) ||| ((b ^^^ 0xFFFFFFFF) &&& d)), 0x5A827999)
  else if t < 40 then (b ^^^ c ^^^ d, 0x6ED9EBA1)
  else if t < 60 then (((b &&& c) ||| (b &&& d) ||| (c &&& d)), 0x8F1BBCDC)
  else (b ^^^ c ^^^ d, 0xCA62C1D6)

/-- The 80 rounds over one block.  `win` holds the sixteen message-schedule words
`w[t] .. w[t+15]`; `n` rounds remain. -/
def sha1Rounds : Nat → Nat → List Nat → Sha1State → Sha1State
  | 0, _, _, s => s
  | n + 1, t, win, s =>
    let w := win.getD 0 0
    let next := rotl32 (win.getD 13 0 ^^^ win.getD 8 0 ^^^ win.getD 2 0 ^^^ w) 1
    let fk := sha1Round t s.h1 s.h2 s.h3
    let temp := (rotl32 s.h0 5 + fk.1 + s.h4 + fk.2 + w) % 4294967296
    sha1Rounds n (t + 1) (win.drop 1 ++ [next]) ⟨temp, s.h0, rotl32 s.h1 30, s.h2, s.h3⟩

/-- Big-endian 32-bit words of a byte sequence (four bytes per word). -/
def beWords : Bytes → List Nat
  | b0 :: b1 :: b2 :: b3 :: rest =>
    ((((b0 % 256) * 256 + b1 % 256) * 256 + b2 % 256) * 256 + b3 % 256) :: beWords rest
  | _ => []

/-- Absorb one 64-byte block into the chaining value. -/
def sha1Block (s : Sha1State) (block : Bytes) : Sha1State :=
  let r := sha1Rounds 80 0 (beWords block) s
  ⟨(s.h0 + r.h0) % 4294967296, (s.h1 + r.h1) % 4294967296, (s.h2 + r.h2) % 4294967296,
   (s.h3 + r.h3) % 4294967296, (s.h4 + r.h4) % 4294967296⟩

/-- Absorb `n` consecutive 64-byte blocks. -/
def sha1Blocks : Nat → Sha1State → Bytes → Sha1State
  | 0, s, _ => s
  | n + 1, s, msg => sha1Blocks n (sha1Block s (msg.take 64)) (msg.drop 64)

/-- The big-endian bytes of a 64-bit length. -/
def beBytes64 (n : Nat) : Bytes :=
  [n / 72057594037927936 % 256, n / 281474976710656 % 256, n / 1099511627776 % 256,
   n / 4294967296 % 256, n / 16777216 % 256, n / 65536 % 256, n / 256 % 256, n % 256]

/-- The message with SHA-1 padding: a `0x80` byte, zeros up to 56 modulo 64, and the length in
bits as 64 bits. -/
def sha1Pad (data : Bytes) : Bytes :=
  data ++ 0x80 :: List.replicate ((119 - data.length % 64) % 64) 0 ++ beBytes64 (8 * data.length)

/-- The four big-endian bytes of a 32-bit word. -/
def beBytes32 (w : Nat) : Bytes := [w / 16777216 % 256, w / 65536 % 256, w / 256 % 256, w % 256]

/-- The 20-byte digest held by a chaining value. -/
def sha1Digest (s : Sha1State) : Bytes :=
  beBytes32 s.h0 ++ beBytes32 s.h1 ++ beBytes32 s.h2 ++ beBytes32 s.h3 ++ beBytes32 s.h4

/-- The digest computed by `sha1.New()`, `Write(data)`, `Sum(nil)`: the 20 bytes of SHA-1. -/
def sha1Sum (data : Bytes) : Bytes :=
  sha1Digest (sha1Blocks ((sha1Pad data).length / 64) sha1Init (sha1Pad data))

/-- One hexadecimal digit of `%x`. -/
def hexDigit (n : Nat) : Nat := if n < 10 then 48 + n else 87 + n

/-- The verb `%x` applied to a byte slice: two lowercase digits per byte. -/
def hexEncode : Bytes → Bytes
  | [] => []
  | b :: bs => hexDigit (b / 16 % 16) :: hexDigit (b % 16) :: hexEncode bs

/-- Function `calcSha1String`: the SHA-1 of the data in lowercase hexadecimal. -/
def calcSha1String (data : Bytes) : Bytes := hexEncode (sha1Sum data)

/-! ## Outcomes and errors -/

/-- The two ways an operation stops the process: `log.Fatal`, or a run-time panic. -/
inductive Abort where
  | fatal
  | panic
deriving DecidableEq

/-- The values of Go's `error` that the program meets (`nil` is `none : Option GoError`). -/
inductive GoError where
  | osNotExist
  | osExist
  | osPermission
  | osNotDir
  | s3NoSuchKey
  | s3Failure
deriving DecidableEq

/-- Library function `os.IsExist`: true for an "already exists" error only; false for `nil`. -/
def osIsExist : Option GoError → Bool
  | some .osExist => true
  | _ => false

/-- Library function `os.IsNotExist`: true for a "does not exist" error only; false for `nil`. -/
def osIsNotExist : Option GoError → Bool
  | some .osNotExist => true
  | _ => false

/-! ## Paths: `filepath.Clean` and `filepath.Join` (Unix) -/

/-- The path separator `'/'`. -/
def sep : Nat := 47

/-- The elements of a path between its separators. -/
def splitSep : Bytes → List Bytes
  | [] => [[]]
  | c :: cs =>
    if c = sep then [] :: splitSep cs
    else
      match splitSep cs with
      | [] => [[c]]
      | e :: es => (c :: e) :: es

/-- Library function `strings.Join(elems, "/")`. -/
def joinSep : List Bytes → Bytes
  | [] => []
  | [e] => e
  | e :: es => e ++ sep :: joinSep es

/-- One element of the path in `filepath.Clean`.  `stack` holds the elements kept so far, the
last one first.  An empty element and `.` are dropped; `..` removes the last real element, and
is kept only in front of a path that is not rooted. -/
def cleanStep (rooted : Bool) (stack : List Bytes) (e : Bytes) : List Bytes :=
  if e = [] ∨ e = ascii "." then stack
  else if e = ascii ".." then
    match stack with
    | top :: below =>
      if top = ascii ".." then (if rooted then stack else e :: stack) else below
    | [] => if rooted then [] else [e]
  else e :: stack

/-- Library function `filepath.Clean`: the shortest path equivalent to `path` by lexical
processing. -/
def filepathClean (path : Bytes) : Bytes :=
  match path with
  | [] => ascii "."
  | c :: _ =>
    let rooted := decide (c = sep)
    let body := joinSep ((splitSep path).foldl (cleanStep rooted) []).reverse
    if rooted then sep :: body
    else if body = [] then ascii "." else body

/-- Library function `filepath.Join`: the elements from the first non-empty one on, joined by
separators and cleaned; the empty string when every element is empty. -/
def filepathJoin : List Bytes → Bytes
  | [] => []
  | e :: es => if e = [] then filepathJoin es else filepathClean (joinSep (e :: es))

/-- A plain path element: not empty, without a separator, and neither `.` nor `..`. -/
def plainElem (c : Bytes) : Prop := c ≠ [] ∧ sep ∉ c ∧ c ≠ ascii "." ∧ c ≠ ascii ".."

/-! ## Configuration -/

/-- The process-wide settings: the command-line flags and what the environment answers to the
look-ups of the current user and of the bucket configuration. -/
structure Env where
  /-- Flag `-assetpath` (default `~/.gitasset`). -/
  assetDirPath : Bytes
  /-- Flag `-local`: "Local mode (not use S3)". -/
  localMode : Bool
  /-- The home directory `user.Current()` reports; `none` when the look-up fails. -/
  homeDir : Option Bytes
  /-- Whether `gits3.ini` under the asset directory can be read and holds a well-formed
  `awskey` (`key:secret`) and a `bucket` for the configured section. -/
  configOk : Bool

/-- Function `assetDir`: the asset path, with a leading `~/` replaced by the home directory. -/
def assetDir (env : Env) : Except Abort Bytes :=
  match slice env.assetDirPath 0 2 with
  | none => .error .panic
  | some pre =>
    if pre = ascii "~/" then
      match env.homeDir with
      | none => .error .fatal
      | some home =>
        match sliceFrom env.assetDirPath 2 with
        | none => .error .panic
        | some rest => .ok (filepathJoin [home, rest])
    else .ok env.assetDirPath

/-- Function `getBucket` (with `getConfig`): resolves the asset directory, reads the
configuration file and builds the bucket handle; `log.Fatal` when the file or one of its keys
is missing or malformed. -/
def getBucket (env : Env) : Except Abort Unit :=
  match assetDir env with
  | .error a => .error a
  | .ok _ => if env.configOk then .ok () else .error .fatal

/-- Function `cachePath`: the shard directory and the file name of a fingerprint. -/
def cachePath (env : Env) (sha1hex : Bytes) : Except Abort (Bytes × Bytes) :=
  match assetDir env with
  | .error a => .error a
  | .ok root =>
    match slice sha1hex 0 2, slice sha1hex 2 4, sliceFrom sha1hex 4 with
    | some a, some b, some filename => .ok (filepathJoin [root, ascii "data", a, b], filename)
    | _, _, _ => .error .panic

/-! ## The world: local files, remote bucket, standard output -/

/-- A call made to the local file system. -/
inductive FsCall where
  | lstat (path : Bytes)
  | mkdirAll (path : Bytes)
  | writeFile (path : Bytes)
  | readFile (path : Bytes)
deriving DecidableEq

/-- A call made to the remote bucket. -/
inductive S3Call where
  | getReader (key : Bytes)
  | get (key : Bytes)
  | put (key : Bytes)
deriving DecidableEq

/-- The state the operations act on. -/
structure World where
  /-- The regular files of the local file system: content by path. -/
  files : Bytes → Option Bytes
  /-- The error, if any, with which the system refuses to open a path for reading, whether or
  not a file is recorded at it: a permission error, or "not a directory" when a component of
  the path is a regular file. -/
  readFault : Bytes → Option GoError
  /-- Directories that `os.MkdirAll` fails to create. -/
  mkdirFault : Bytes → Bool
  /-- Paths at which `ioutil.WriteFile` fails. -/
  writeFault : Bytes → Bool
  /-- The objects of the remote bucket: content by key.  The existence check (`GetReader`) and
  `Get` succeed exactly for the keys present. -/
  bucket : Bytes → Option Bytes
  /-- Keys at which the bucket rejects a `Put`. -/
  putFault : Bytes → Bool
  /-- The file-system calls made so far, oldest first. -/
  fsCalls : List FsCall
  /-- The bucket calls made so far, oldest first. -/
  s3Calls : List S3Call
  /-- The bytes written to standard output so far. -/
  stdout : Bytes
  /-- Whether a write to standard output fails (a closed descriptor, a full disk). -/
  stdoutFault : Bool

/-- The world before anything was stored: no file, an empty bucket, no fault, no call made and
nothing written. -/
def emptyWorld : World :=
  ⟨fun _ => none, fun _ => none, fun _ => false, fun _ => false, fun _ => none,
    fun _ => false, [], [], [], false⟩

/-- Library function `os.Lstat`, of which the program only uses the error: `nil` when the path
exists, a "does not exist" error otherwise. -/
def osLstat (path : Bytes) (w : World) : Option GoError × World :=
  (if (w.files path).isSome then none else some .osNotExist,
   { w with fsCalls := w.fsCalls ++ [.lstat path] })

/-- Library function `os.MkdirAll`. -/
def osMkdirAll (path : Bytes) (w : World) : Option GoError × World :=
  (if w.mkdirFault path then some .osPermission else none,
   { w with fsCalls := w.fsCalls ++ [.mkdirAll path] })

/-- Library function `ioutil.WriteFile`: creates the file or truncates the existing one, then
writes `data`. -/
def ioWriteFile (path data : Bytes) (w : World) : Option GoError × World :=
  if w.writeFault path then
    (some .osPermission, { w with fsCalls := w.fsCalls ++ [.writeFile path] })
  else
    (none, { w with files := fun p => if p = path then some data else w.files p,
                    fsCalls := w.fsCalls ++ [.writeFile path] })

/-- Library function `ioutil.ReadFile`: the error with which the open is refused, a "does not
exist" error when there is no file at the path, the content otherwise. -/
def ioReadFile (path : Bytes) (w : World) : (Bytes × Option GoError) × World :=
  (match w.readFault path with
   | some err => ([], some err)
   | none =>
     match w.files path with
     | none => ([], some .osNotExist)
     | some data => (data, none),
   { w with fsCalls := w.fsCalls ++ [.readFile path] })

/-- Library function `bucket.GetReader`, of which the program only uses the error. -/
def bucketGetReader (key : Bytes) (w : World) : Option GoError × World :=
  (if (w.bucket key).isSome then none else some .s3NoSuchKey,
   { w with s3Calls := w.s3Calls ++ [.getReader key] })

/-- Library function `bucket.Get`. -/
def bucketGet (key : Bytes) (w : World) : (Bytes × Option GoError) × World :=
  (match w.bucket key with
   | none => ([], some .s3NoSuchKey)
   | some data => (data, none),
   { w with s3Calls := w.s3Calls ++ [.get key] })

/-- Library function `bucket.Put`. -/
def bucketPut (key data : Bytes) (w : World) : Option GoError × World :=
  if w.putFault key then
    (some .s3Failure, { w with s3Calls := w.s3Calls ++ [.put key] })
  else
    (none, { w with bucket := fun k => if k = key then some data else w.bucket k,
                    s3Calls := w.s3Calls ++ [.put key] })

/-- Function `writeStdout`: the write to standard output, and `log.Fatal` when it fails. -/
def writeStdout (contents : Bytes) (w : World) : Except Abort Unit × World :=
  if w.stdoutFault then (.error .fatal, w)
  else (.ok (), { w with stdout := w.stdout ++ contents })

/-! ## Tier operations -/

/-- Function `storeToS3`: the existence check, then the `Put` when the check reports an error. -/
def storeToS3 (env : Env) (hex data : Bytes) (w : World) : Except Abort (Option GoError) × World :=
  match getBucket env with
  | .error a => (.error a, w)
  | .ok _ =>
    match bucketGetReader hex w with
    | (none, w1) => (.ok none, w1)
    | (some _, w1) =>
      match bucketPut hex data w1 with
      | (err, w2) => (.ok err, w2)

/-- Function `loadFromS3`. -/
def loadFromS3 (env : Env) (hex : Bytes) (w : World) :
    Except Abort (Bytes × Option GoError) × World :=
  match getBucket env with
  | .error a => (.error a, w)
  | .ok _ =>
    match bucketGet hex w with
    | (r, w1) => (.ok r, w1)

/-- Function `storeToCache`: `Lstat` on the cache file, the early return guarded by
`os.IsExist`, then `MkdirAll` and `WriteFile`. -/
def storeToCache (env : Env) (hex data : Bytes) (w : World) : Except Abort Unit × World :=
  match cachePath env hex with
  | .error a => (.error a, w)
  | .ok (dirpath, filename) =>
    let filePath := filepathJoin [dirpath, filename]
    match osLstat filePath w with
    | (err, w1) =>
      if osIsExist err then (.ok (), w1)
      else
        match osMkdirAll dirpath w1 with
        | (some _, w2) => (.error .fatal, w2)
        | (none, w2) =>
          match ioWriteFile filePath data w2 with
          | (some _, w3) => (.error .fatal, w3)
          | (none, w3) => (.ok (), w3)

/-- Function `loadFromCache`. -/
def loadFromCache (env : Env) (hex : Bytes) (w : World) :
    Except Abort (Bytes × Option GoError) × World :=
  match cachePath env hex with
  | .error a => (.error a, w)
  | .ok (dirpath, filename) =>
    match ioReadFile (filepathJoin [dirpath, filename]) w with
    | (r, w1) => (.ok r, w1)

/-! ## Single-object pipeline -/

/-- Function `store`: `stdin` is the whole standard input. -/
def store (env : Env) (stdin : Bytes) (w : World) : Except Abort Unit × World :=
  let sha1hex := calcSha1String stdin
  match storeToCache env sha1hex stdin w with
  | (.error a, w1) => (.error a, w1)
  | (.ok _, w1) =>
    if !env.localMode then
      match storeToS3 env sha1hex stdin w1 with
      | (.error a, w2) => (.error a, w2)
      | (.ok (some _), w2) => (.error .fatal, w2)
      | (.ok none, w2) => writeStdout sha1hex w2
    else writeStdout sha1hex w1

/-- Function `load`: `stdin` is the whole standard input. -/
def load (env : Env) (stdin : Bytes) (w : World) : Except Abort Unit × World :=
  let hex := stdin
  if !isValidHash hex then writeStdout stdin w
  else
    match loadFromCache env hex w with
    | (.error a, w1) => (.error a, w1)
    | (.ok (contents, err), w1) =>
      if osIsNotExist err then
        match loadFromS3 env hex w1 with
        | (.error a, w2) => (.error a, w2)
        | (.ok (_, some _), w2) => (.error .fatal, w2)
        | (.ok (fetched, none), w2) =>
          match storeToCache env hex fetched w2 with
          | (.error a, w3) => (.error a, w3)
          | (.ok _, w3) => writeStdout fetched w3
      else if err.isSome then (.error .fatal, w1)
      else writeStdout contents w1

/-! ## The directory tree and `filepath.Walk` -/

mutual
/-- What the traversal finds at a path. -/
inductive Node where
  /-- `Lstat` succeeds and the entry is not a directory. -/
  | file
  /-- `Lstat` fails with the error. -/
  | bad (err : GoError)
  /-- A directory: the error of reading its entry names, if any, and its entries. -/
  | dir (listErr : Option GoError) (children : Children)
/-- The entries of a directory, in lexical order of their names. -/
inductive Children where
  | nil
  | cons (name : Bytes) (node : Node) (rest : Children)
end

/-- What a call of a walk function does: it returns an error value; or it never returns,
because its goroutine waits for ever or because the process is stopped inside it. -/
inductive Reply where
  | ret (err : Option GoError)
  | hang
  | abort (a : Abort)
deriving DecidableEq

/-- A `filepath.WalkFunc` acting on a state: the path, `info.IsDir()`, the error `Walk` reports
for the entry; it returns an error to stop the traversal. -/
abbrev WalkFunc (σ : Type) := Bytes → Bool → Option GoError → σ → Reply × σ

mutual
/-- Library function `filepath.Walk` below an entry: the function is called on the entry (for a
directory, with the error of reading its names); a non-nil result ends the traversal with that
result, and a directory that could not be read is not entered.  A call that does not return
ends the traversal there.  (`filepath.SkipDir` is not represented: the walk functions of this
program never return it.) -/
def walkNode {σ : Type} (fn : WalkFunc σ) (path : Bytes) : Node → σ → Reply × σ
  | .file, s => fn path false none s
  | .bad err, s => fn path false (some err) s
  | .dir listErr children, s =>
    match fn path true listErr s with
    | (.ret err1, s1) =>
      if listErr.isSome || err1.isSome then (.ret err1, s1)
      else walkChildren fn path children s1
    | (r, s1) => (r, s1)
/-- The loop of `filepath.Walk` over the entries of the directory `path`. -/
def walkChildren {σ : Type} (fn : WalkFunc σ) (path : Bytes) : Children → σ → Reply × σ
  | .nil, s => (.ret none, s)
  | .cons name node rest, s =>
    match walkNode fn (filepathJoin [path, name]) node s with
    | (.ret none, s1) => walkChildren fn path rest s1
    | (r, s1) => (r, s1)
end

/-- Library function `filepath.Walk(root, fn)` over the tree found at `root`. -/
def filepathWalk {σ : Type} (fn : WalkFunc σ) (root : Bytes) (tree : Node) (s : σ) :
    Reply × σ :=
  walkNode fn root tree s

/-- An entry met by a traversal: its path, whether it is a directory, and the error `Walk`
reports for it. -/
structure Visit where
  path : Bytes
  isDir : Bool
  err : Option GoError
deriving DecidableEq

/-- A walk function that records the entry and never stops the traversal. -/
def recordFn : WalkFunc (List Visit) := fun path isDir err seen =>
  (.ret none, seen ++ [⟨path, isDir, err⟩])

/-- The entries of the tree in the order `filepath.Walk` meets them when nothing stops it. -/
def visits (root : Bytes) (tree : Node) : List Visit :=
  (filepathWalk recordFn root tree []).2

/-- The paths of the entries that are not directories, up to the first entry with an error. -/
def filesBeforeError : List Visit → List Bytes
  | [] => []
  | v :: vs =>
    match v.err with
    | some _ => []
    | none => if v.isDir then filesBeforeError vs else v.path :: filesBeforeError vs

/-- The error of the first entry that has one. -/
def firstError : List Visit → Option GoError
  | [] => none
  | v :: vs =>
    match v.err with
    | some e => some e
    | none => firstError vs

/-! ## Bulk synchronization -/

/-- The Sync Result of one file. -/
structure result where
  path : Bytes
  hash : Bytes
  err : Option GoError
deriving DecidableEq

/-- The state of the walker's goroutine. -/
structure Walker where
  /-- The paths sent on the channel `paths` and received by a worker, in order. -/
  sent : List Bytes
  /-- How many more receives the workers make on `paths`; `none` when every send is
  received. -/
  receives : Option Nat
  /-- The path of the send that no worker receives, at which the goroutine waits. -/
  pending : Option Bytes
deriving DecidableEq

/-- The function `walkFiles` hands to `filepath.Walk`.  The send on the unbuffered channel
`paths` completes when a worker receives it; when no worker does, the `select` waits for ever,
since `done` is closed only when `ParallelUpload` returns, which is after the traversal has
ended. -/
def walkFilesFn : WalkFunc Walker := fun path isDir err s =>
  match err with
  | some e => (.ret (some e), s)
  | none =>
    if isDir then (.ret none, s)
    else
      match s.receives with
      | some 0 => (.hang, { s with pending := some path })
      | some (k + 1) => (.ret none, { s with sent := s.sent ++ [path], receives := some k })
      | none => (.ret none, { s with sent := s.sent ++ [path] })

/-- A run of the walker's goroutine. -/
structure WalkerRun where
  /-- The paths sent on `paths` and received, in order. -/
  sent : List Bytes
  /-- The path of the send at which the goroutine waits for ever, if it does. -/
  pending : Option Bytes
  /-- The terminal error sent on `errc`; `none` when the traversal never ends and nothing is
  sent. -/
  terminal : Option (Option GoError)
deriving DecidableEq

/-- Function `walkFiles`: the run of its goroutine when the workers make `receives` receives on
the channel `paths` (`none`: they receive every send). -/
def walkFiles (root : Bytes) (tree : Node) (receives : Option Nat) : WalkerRun :=
  match filepathWalk walkFilesFn root tree ⟨[], receives, none⟩ with
  | (.ret err, s) => ⟨s.sent, none, some err⟩
  | (_, s) => ⟨s.sent, s.pending, none⟩

/-- What the walker has done once it has gone through the files `fs` of a traversal that ends
with the error `fe`, starting with `sent` already sent and `receives` receives to come: it
returns `fe` having sent them all, or waits at the first file that no worker receives. -/
def walkerAfter (sent fs : List Bytes) (receives : Option Nat) (fe : Option GoError) :
    Reply × Walker :=
  match receives with
  | none => (.ret fe, ⟨sent ++ fs, none, none⟩)
  | some c =>
    if fs.length ≤ c then (.ret fe, ⟨sent ++ fs, some (c - fs.length), none⟩)
    else (.hang, ⟨sent ++ fs.take c, some 0, some (fs.getD c [])⟩)

/-- A run of one worker. -/
structure WorkerRun where
  /-- The Sync Results sent on the result channel, in order. -/
  results : List result
  /-- The paths still offered on `paths` when the worker returned. -/
  rest : List Bytes
  /-- Set when the process was stopped inside the worker (`log.Fatal` in `getBucket`). -/
  abort : Option Abort
  /-- The world the worker leaves. -/
  world : World

/-- Function `pathToS3` run on the paths offered to it, with a collector receiving every result
and no cancellation. -/
def pathToS3 (env : Env) : List Bytes → World → WorkerRun
  | [], w => ⟨[], [], none, w⟩
  | path :: paths, w =>
    match ioReadFile path w with
    | ((_, some err), w1) => ⟨[⟨path, [], some err⟩], paths, none, w1⟩
    | ((data, none), w1) =>
      match storeToS3 env (calcSha1String data) data w1 with
      | (.error a, w2) => ⟨[], paths, some a, w2⟩
      | (.ok err, w2) =>
        let r := pathToS3 env paths w2
        ⟨⟨path, calcSha1String data, err⟩ :: r.results, r.rest, r.abort, r.world⟩

/-- The pool of `n` workers, in the schedule where a worker takes every path until it returns
and the next one takes over (the only schedule when `n` is 1). -/
def workerPool (env : Env) : Nat → List Bytes → World → WorkerRun
  | 0, paths, w => ⟨[], paths, none, w⟩
  | n + 1, paths, w =>
    let r := pathToS3 env paths w
    match r.abort with
    | some a => ⟨r.results, r.rest, some a, r.world⟩
    | none =>
      let r2 := workerPool env n r.rest r.world
      ⟨r.results ++ r2.results, r2.rest, r2.abort, r2.world⟩

/-- How a run of `ParallelUpload` ends. -/
inductive Finish where
  /-- It returns the error. -/
  | returned (err : Option GoError)
  /-- The process was stopped. -/
  | aborted (a : Abort)
  /-- Every worker has returned while the walker still waits to hand over a path: no goroutine
  can proceed. -/
  | deadlock
deriving DecidableEq

/-- A run of `ParallelUpload`. -/
structure UploadRun where
  finish : Finish
  /-- The Sync Results the collector logged. -/
  results : List result
  world : World

/-- Function `ParallelUpload` over the tree found under the data directory.  The workers are
run on the paths the walker offers; the walker is run with the receives the workers make.  The
function returns the terminal error once the walker has sent it; when the walker waits at a
send after every worker has returned, no goroutine can proceed. -/
def ParallelUpload (env : Env) (parallel : Int) (tree : Node) (w : World) : UploadRun :=
  match assetDir env with
  | .error a => ⟨.aborted a, [], w⟩
  | .ok dir =>
    if parallel < 0 then ⟨.aborted .panic, [], w⟩
    else
      let root := filepathJoin [dir, ascii "data"]
      let offered := (walkFiles root tree none).sent
      let r := workerPool env parallel.toNat offered w
      match r.abort with
      | some a => ⟨.aborted a, r.results, r.world⟩
      | none =>
        match (walkFiles root tree (some (offered.length - r.rest.length))).terminal with
        | some err => ⟨.returned err, r.results, r.world⟩
        | none => ⟨.deadlock, r.results, r.world⟩

/-- The walk function of the sequential `upload`: an entry with an error, and a file that
cannot be read, are skipped; a file that is read is put to the bucket under its digest. -/
def uploadFn (env : Env) : WalkFunc World := fun path isDir err w =>
  match err with
  | some _ => (.ret none, w)
  | none =>
    if isDir then (.ret none, w)
    else
      match ioReadFile path w with
      | ((_, some _), w1) => (.ret none, w1)
      | ((data, none), w1) =>
        match storeToS3 env (calcSha1String data) data w1 with
        | (.error a, w2) => (.abort a, w2)
        | (.ok e, w2) => (.ret e, w2)

/-- Function `upload`, the sequential variant (not called by `main`); the error `Walk` returns
is dropped. -/
def upload (env : Env) (tree : Node) (w : World) : Except Abort Unit × World :=
  match assetDir env with
  | .error a => (.error a, w)
  | .ok dir =>
    match filepathWalk (uploadFn env) (filepathJoin [dir, ascii "data"]) tree w with
    | (.abort a, w1) => (.error a, w1)
    | (_, w1) => (.ok (), w1)

/-! ## Worked inputs -/

/-- The fingerprint of `hello world`. -/
def helloHash : Bytes := ascii "2aae6c35c94fcfb415dbe95f408b9ce91ee846ed"

/-- The cache file of `hello world` under the asset directory `/srv/assets`. -/
def helloPath : Bytes := ascii "/srv/assets/data/2a/ae/6c35c94fcfb415dbe95f408b9ce91ee846ed"

/-- The cache file of the empty object under the asset directory `/srv/assets`. -/
def emptyPath : Bytes := ascii "/srv/assets/data/da/39/a3ee5e6b4b0d3255bfef95601890afd80709"

/-- Asset directory `/srv/assets`, bucket configured, with the given local-only flag. -/
def srvEnv (localMode : Bool) : Env := ⟨ascii "/srv/assets", localMode, none, true⟩

/-- The data directory holding the cache files of `hello world` and of the empty object. -/
def twoObjectTree : Node :=
  .dir none
    (.cons (ascii "2a")
      (.dir none (.cons (ascii "ae")
        (.dir none (.cons (ascii "6c35c94fcfb415dbe95f408b9ce91ee846ed") .file .nil)) .nil))
    (.cons (ascii "da")
      (.dir none (.cons (ascii "39")
        (.dir none (.cons (ascii "a3ee5e6b4b0d3255bfef95601890afd80709") .file .nil)) .nil))
    .nil))

/-- The data directory holding the cache file of `hello world` only. -/
def oneObjectTree : Node :=
  .dir none
    (.cons (ascii "2a")
      (.dir none (.cons (ascii "ae")
        (.dir none (.cons (ascii "6c35c94fcfb415dbe95f408b9ce91ee846ed") .file .nil)) .nil))
    .nil)

/-- A world whose only file is the cache file of `hello world`, holding `content`. -/
def helloCached (content : Bytes) : World :=
  { emptyWorld with files := fun p => if p = helloPath then some content else none }

/-- A world holding both cache files. -/
def twoCached : World :=
  { emptyWorld with
    files := fun p =>
      if p = helloPath then some (ascii "hello world")
      else if p = emptyPath then some []
      else none }

/-- A world holding both cache files, where the read of the cache file of `hello world` is
refused. -/
def helloUnreadable : World :=
  { twoCached with readFault := fun p => if p = helloPath then some .osPermission else none }

/-- The fingerprint of the empty object. -/
def emptyHash : Bytes := ascii "da39a3ee5e6b4b0d3255bfef95601890afd80709"

/-- The data directory of `twoObjectTree` when the shard directory `2a` cannot be read. -/
def unreadableShardTree : Node :=
  .dir none
    (.cons (ascii "2a") (.dir (some .osPermission) .nil)
    (.cons (ascii "da")
      (.dir none (.cons (ascii "39")
        (.dir none (.cons (ascii "a3ee5e6b4b0d3255bfef95601890afd80709") .file .nil)) .nil))
    .nil))

/-- A world with no file whose bucket holds `hello world` under its fingerprint. -/
def helloRemote : World :=
  { emptyWorld with bucket := fun k => if k = helloHash then some (ascii "hello world") else none }

/-! ## Fingerprint validity -/

theorem decodeRune_ascii (b0 : Nat) (rest : Bytes) (h : b0 < 128) :
    decodeRune b0 rest = (b0, 1) := by
  simp [decodeRune, h]

theorem decodeRune_high (b0 : Nat) (rest : Bytes) (h : 128 ≤ b0) :
    128 ≤ (decodeRune b0 rest).1 := by
  unfold decodeRune
  have h0 : ¬ b0 < 0x80 := by omega
  simp only [h0, if_false]
  split
  · rename_i h1
    simp only [inRange, Bool.and_eq_true, decide_eq_true_eq] at h1
    split
    · split
      · simp only; omega
      · simp [runeError]
    · simp [runeError]
  · split
    · rename_i h2
      simp only [inRange, Bool.and_eq_true, decide_eq_true_eq] at h2
      split
      · split
        · rename_i h3
          simp only [inRange, secondByteRange, Bool.and_eq_true, decide_eq_true_eq] at h3
          simp only
          by_cases he : b0 = 0xE0
          · simp only [he, if_true] at h3
            omega
          · omega
        · simp [runeError]
      · simp [runeError]
    · split
      · rename_i h2
        simp only [inRange, Bool.and_eq_true, decide_eq_true_eq] at h2
        split
        · split
          · rename_i h3
            simp only [inRange, secondByteRange, Bool.and_eq_true, decide_eq_true_eq] at h3
            simp only
            by_cases he : b0 = 0xF0
            · simp only [he] at h3
              norm_num at h3
              omega
            · omega
          · simp [runeError]
        · simp [runeError]
      · simp [runeError]

theorem isHexDigit_lt (c : Nat) (h : isHexDigit c = true) : c < 128 := by
  simp only [isHexDigit, Bool.or_eq_true, Bool.and_eq_true, decide_eq_true_eq] at h
  omega

theorem isHexDigit_iff (c : Nat) :
    isHexDigit c = true ↔ (48 ≤ c ∧ c ≤ 57) ∨ (97 ≤ c ∧ c ≤ 102) := by
  simp [isHexDigit]

theorem runes_all_hex (s : Bytes) : (runesFrom 0 s).all isHexDigit = s.all isHexDigit := by
  induction s with
  | nil => simp [runesFrom]
  | cons b rest ih =>
    by_cases hb : b < 128
    · simp [runesFrom, decodeRune_ascii b rest hb, ih]
    · have h1 : isHexDigit (decodeRune b rest).1 = false := by
        cases h : isHexDigit (decodeRune b rest).1
        · rfl
        · have := isHexDigit_lt _ h
          have := decodeRune_high b rest (by omega)
          omega
      have h2 : isHexDigit b = false := by
        cases h : isHexDigit b
        · rfl
        · have := isHexDigit_lt _ h
          omega
      simp [runesFrom, h1, h2]

theorem runes_eq_of_hex (s : Bytes) (h : (runesFrom 0 s).all isHexDigit = true) :
    runesFrom 0 s = s := by
  induction s with
  | nil => simp [runesFrom]
  | cons b rest ih =>
    by_cases hb : b < 128
    · simp only [runesFrom, decodeRune_ascii b rest hb, List.all_cons, Bool.and_eq_true] at h ⊢
      rw [ih h.2]
    · exfalso
      simp only [runesFrom, List.all_cons, Bool.and_eq_true] at h
      have := isHexDigit_lt _ h.1
      have := decodeRune_high b rest (by omega)
      omega

theorem isValidHash_eq (s : Bytes) :
    isValidHash s = (decide (s.length = 40) && s.all isHexDigit) := by
  unfold isValidHash runes
  rw [runes_all_hex]
  by_cases h : s.length = 40 <;> simp [h]

/-- C4. `isValidHash s` is true exactly when `s` has 40 characters, each of them in `'0'..'9'`
or `'a'..'f'`; this holds with characters read as the bytes of the string and with characters
read as its code points.  So the empty string, a fingerprint followed by a newline, an
uppercase fingerprint and a 40-byte string holding a two-byte character are rejected. -/
theorem isValidHash_iff_forty_lowercase_hex (s : Bytes) :
    (isValidHash s = true ↔
      s.length = 40 ∧ ∀ c ∈ s, (48 ≤ c ∧ c ≤ 57) ∨ (97 ≤ c ∧ c ≤ 102)) ∧
    (isValidHash s = true ↔
      (runes s).length = 40 ∧ ∀ c ∈ runes s, (48 ≤ c ∧ c ≤ 57) ∨ (97 ≤ c ∧ c ≤ 102)) ∧
    (isValidHash [] = false ∧
      isValidHash (ascii "2aae6c35c94fcfb415dbe95f408b9ce91ee846ed" ++ [10]) = false ∧
      isValidHash (ascii "2AAE6C35C94FCFB415DBE95F408B9CE91EE846ED") = false ∧
      isValidHash (0xC3 :: 0xA9 :: ascii "ae6c35c94fcfb415dbe95f408b9ce91ee846ed") = false) := by
  have key : isValidHash s = true ↔
      s.length = 40 ∧ ∀ c ∈ s, (48 ≤ c ∧ c ≤ 57) ∨ (97 ≤ c ∧ c ≤ 102) := by
    rw [isValidHash_eq]
    simp only [Bool.and_eq_true, decide_eq_true_eq, List.all_eq_true, isHexDigit_iff]
  refine ⟨key, ⟨?_, ?_⟩, by decide⟩
  · intro h
    have hall : (runesFrom 0 s).all isHexDigit = true := by
      rw [runes_all_hex]
      rw [isValidHash_eq] at h
      simp only [Bool.and_eq_true] at h
      exact h.2
    have hr : runes s = s := runes_eq_of_hex s hall
    rw [hr]
    exact key.mp h
  · intro h
    have hall : (runesFrom 0 s).all isHexDigit = true := by
      simp only [List.all_eq_true, isHexDigit_iff]
      exact h.2
    have hr : runes s = s := runes_eq_of_hex s hall
    rw [hr] at h
    exact key.mpr h

/-! ## The digest is a valid fingerprint -/

theorem hexDigit_isHex (n : Nat) (h : n < 16) : isHexDigit (hexDigit n) = true := by
  unfold hexDigit isHexDigit
  split <;> simp <;> omega

theorem hexEncode_length (bs : Bytes) : (hexEncode bs).length = 2 * bs.length := by
  induction bs with
  | nil => rfl
  | cons b bs ih => simp [hexEncode, ih]; omega

theorem hexEncode_all_hex (bs : Bytes) : (hexEncode bs).all isHexDigit = true := by
  induction bs with
  | nil => rfl
  | cons b bs ih =>
    simp only [hexEncode, List.all_cons, ih, Bool.and_true, Bool.and_eq_true]
    exact ⟨hexDigit_isHex _ (Nat.mod_lt _ (by decide)), hexDigit_isHex _ (Nat.mod_lt _ (by decide))⟩

theorem sha1Sum_length (data : Bytes) : (sha1Sum data).length = 20 := by
  simp [sha1Sum, sha1Digest, beBytes32]

theorem calcSha1String_valid (data : Bytes) : isValidHash (calcSha1String data) = true := by
  rw [isValidHash_eq]
  simp [calcSha1String, hexEncode_length, sha1Sum_length, hexEncode_all_hex]

/-! ## Paths -/

theorem splitSep_ne_nil (p : Bytes) : splitSep p ≠ [] := by
  cases p with
  | nil => simp [splitSep]
  | cons c cs =>
    unfold splitSep
    split
    · simp
    · split <;> simp

theorem splitSep_append_sep (a b : Bytes) :
    splitSep (a ++ sep :: b) = splitSep a ++ splitSep b := by
  induction a with
  | nil => simp [splitSep]
  | cons x a ih =>
    by_cases hx : x = sep
    · simp [splitSep, hx, ih]
    · have hne := splitSep_ne_nil a
      cases hs : splitSep a with
      | nil => exact absurd hs hne
      | cons e es =>
        simp [splitSep, hx, ih, hs]

theorem splitSep_of_not_mem (c : Bytes) (h : sep ∉ c) : splitSep c = [c] := by
  induction c with
  | nil => rfl
  | cons x c ih =>
    have hx : x ≠ sep := fun e => h (by simp [e])
    have hc : sep ∉ c := fun e => h (by simp [e])
    simp [splitSep, hx, ih hc]

theorem splitSep_joinSep (c : Bytes) (cs : List Bytes) (h : ∀ e ∈ c :: cs, sep ∉ e) :
    splitSep (joinSep (c :: cs)) = c :: cs := by
  induction cs generalizing c with
  | nil => simpa [joinSep] using splitSep_of_not_mem c (h c (by simp))
  | cons d ds ih =>
    have hc : sep ∉ c := h c (by simp)
    have hds : ∀ e ∈ d :: ds, sep ∉ e := fun e he => h e (by simp [List.mem_cons] at he ⊢; tauto)
    simp only [joinSep]
    rw [splitSep_append_sep, splitSep_of_not_mem c hc]
    have := ih d hds
    simp only [joinSep] at this
    simp [joinSep, this]

theorem cleanStep_plain (r : Bool) (st : List Bytes) (c : Bytes) (h : plainElem c) :
    cleanStep r st c = c :: st := by
  obtain ⟨h1, _, h3, h4⟩ := h
  simp [cleanStep, h1, h3, h4]

theorem foldl_cleanStep_plain (r : Bool) (cs st : List Bytes) (h : ∀ e ∈ cs, plainElem e) :
    cs.foldl (cleanStep r) st = cs.reverse ++ st := by
  induction cs generalizing st with
  | nil => rfl
  | cons c cs ih =>
    simp only [List.foldl_cons, List.reverse_cons, List.append_assoc, List.singleton_append]
    rw [cleanStep_plain r st c (h c (by simp))]
    exact ih _ (fun e he => h e (by simp [he]))

theorem joinSep_append (xs ys : List Bytes) (hx : xs ≠ []) (hy : ys ≠ []) :
    joinSep (xs ++ ys) = joinSep xs ++ sep :: joinSep ys := by
  induction xs with
  | nil => exact absurd rfl hx
  | cons x xs ih =>
    cases xs with
    | nil =>
      cases ys with
      | nil => exact absurd rfl hy
      | cons y ys => simp [joinSep]
    | cons x2 xs =>
      have := ih (by simp)
      simp only [List.cons_append] at this ⊢
      simp [joinSep, this]

/-- Cleaning a clean path followed by plain elements changes nothing. -/
theorem filepathClean_append_plain (R : Bytes) (c : Bytes) (cs : List Bytes)
    (hR : filepathClean R = R) (hroot : R ≠ [sep]) (hdot : R ≠ ascii ".")
    (hcs : ∀ e ∈ c :: cs, plainElem e) :
    filepathClean (R ++ sep :: joinSep (c :: cs)) = R ++ sep :: joinSep (c :: cs) := by
  cases R with
  | nil => simp [filepathClean, ascii] at hR
  | cons r0 R1 =>
    have hsplit : splitSep (r0 :: R1 ++ sep :: joinSep (c :: cs)) =
        splitSep (r0 :: R1) ++ (c :: cs) := by
      rw [splitSep_append_sep, splitSep_joinSep c cs (fun e he => (hcs e he).2.1)]
    simp only [filepathClean, List.cons_append] at hR ⊢
    rw [← List.cons_append, hsplit, List.foldl_append, foldl_cleanStep_plain _ _ _ hcs]
    simp only [List.reverse_append, List.reverse_reverse]
    generalize hst :
      (List.foldl (cleanStep (decide (r0 = sep))) [] (splitSep (r0 :: R1))).reverse = st at hR ⊢
    have hst_ne : st ≠ [] := by
      intro e
      subst e
      by_cases hr : r0 = sep
      · simp [hr, joinSep] at hR
        apply hroot
        simp [hr, ← hR]
      · simp [hr, joinSep] at hR
        exact hdot hR.symm
    rw [joinSep_append st (c :: cs) hst_ne (by simp)]
    by_cases hr : r0 = sep
    · simp only [hr, decide_True, if_true] at hR ⊢
      have : joinSep st = R1 := by simpa using hR
      rw [this]
      simp
    · simp only [hr, decide_False, if_false] at hR ⊢
      have hb : joinSep st ≠ [] := by
        intro e
        simp only [e, if_true] at hR
        exact hdot hR.symm
      simp only [hb, if_false] at hR
      have hR2 : joinSep st = r0 :: R1 := by simpa using hR
      simp [hR2]

theorem valid_length (F : Bytes) (h : isValidHash F = true) : F.length = 40 := by
  rw [isValidHash_eq] at h
  simp only [Bool.and_eq_true, decide_eq_true_eq] at h
  exact h.1

theorem valid_hex (F : Bytes) (h : isValidHash F = true) : ∀ c ∈ F, isHexDigit c = true := by
  rw [isValidHash_eq] at h
  simp only [Bool.and_eq_true, List.all_eq_true] at h
  exact h.2

theorem plainElem_of_hex_pair (a : Bytes) (hlen : a.length = 2)
    (hhex : ∀ c ∈ a, isHexDigit c = true) : plainElem a := by
  match a, hlen with
  | [x, y], _ =>
    have hx := hhex x (by simp)
    have hy := hhex y (by simp)
    simp only [isHexDigit, Bool.or_eq_true, Bool.and_eq_true, decide_eq_true_eq] at hx hy
    refine ⟨by simp, ?_, by simp [ascii], ?_⟩
    · simp only [sep, List.mem_cons, List.mem_singleton, List.not_mem_nil, or_false, not_or]
      omega
    · simp only [ascii]
      intro e
      have : x = 46 := by simpa using (List.cons.inj e).1
      omega

theorem plainElem_data : plainElem (ascii "data") := by
  refine ⟨by decide, by decide, by decide, by decide⟩

theorem cachePath_eq (env : Env) (R F : Bytes) (hR : assetDir env = .ok R)
    (hF : isValidHash F = true) :
    cachePath env F =
      .ok (filepathJoin [R, ascii "data", F.take 2, (F.drop 2).take 2], F.drop 4) := by
  have hlen := valid_length F hF
  simp [cachePath, hR, slice, sliceFrom, hlen]

theorem filepathJoin_shards (R a b : Bytes) (hR : filepathClean R = R) (hroot : R ≠ ascii "/")
    (hdot : R ≠ ascii ".") (ha : plainElem a) (hb : plainElem b) :
    filepathJoin [R, ascii "data", a, b] = R ++ ascii "/data/" ++ a ++ ascii "/" ++ b := by
  have hne : R ≠ [] := by
    intro e
    rw [e] at hR
    simp [filepathClean, ascii] at hR
  have h := filepathClean_append_plain R (ascii "data") [a, b] hR hroot hdot (by
    intro e he
    simp only [List.mem_cons, List.mem_singleton, List.not_mem_nil, or_false] at he
    rcases he with rfl | rfl | rfl
    · exact plainElem_data
    · exact ha
    · exact hb)
  have hj : joinSep [R, ascii "data", a, b] = R ++ sep :: joinSep [ascii "data", a, b] := by
    simp [joinSep]
  simp only [filepathJoin, hne, if_false]
  rw [hj, h]
  simp [joinSep, ascii, sep]

/-- C5. For a valid fingerprint `F` and a resolved asset directory `R`, `cachePath` does not
fail and returns the directory `Join(R, "data", F[0:2], F[2:4])` and the file name `F[4:]`; the
two shard names and the file name (2, 2 and 36 characters) concatenate back to `F`; and when `R`
is a clean path other than `/` and `.`, the directory is the string `R/data/F[0:2]/F[2:4]`.
(The result is a function of the settings and `F`, so repeated calls return the same pair.) -/
theorem cachePath_layout (env : Env) (R F : Bytes) (hR : assetDir env = .ok R)
    (hF : isValidHash F = true) :
    cachePath env F =
        .ok (filepathJoin [R, ascii "data", F.take 2, (F.drop 2).take 2], F.drop 4) ∧
      F.take 2 ++ (F.drop 2).take 2 ++ F.drop 4 = F ∧
      (F.take 2).length = 2 ∧ ((F.drop 2).take 2).length = 2 ∧ (F.drop 4).length = 36 ∧
      (filepathClean R = R → R ≠ ascii "/" → R ≠ ascii "." →
        filepathJoin [R, ascii "data", F.take 2, (F.drop 2).take 2] =
          R ++ ascii "/data/" ++ F.take 2 ++ ascii "/" ++ (F.drop 2).take 2) := by
  have hlen := valid_length F hF
  have hhex := valid_hex F hF
  have l1 : (F.take 2).length = 2 := by simp [hlen]
  have l2 : ((F.drop 2).take 2).length = 2 := by simp [hlen]
  refine ⟨cachePath_eq env R F hR hF, ?_, l1, l2, by simp [hlen], ?_⟩
  · rw [List.append_assoc]
    have : (F.drop 2).take 2 ++ F.drop 4 = F.drop 2 := by
      have := List.take_append_drop 2 (F.drop 2)
      simpa [List.drop_drop] using this
    rw [this, List.take_append_drop]
  · intro hc hroot hdot
    apply filepathJoin_shards R _ _ hc hroot hdot
    · exact plainElem_of_hex_pair _ l1 (fun c hc => hhex c (List.mem_of_mem_take hc))
    · exact plainElem_of_hex_pair _ l2
        (fun c hc => hhex c (List.mem_of_mem_drop (List.mem_of_mem_take hc)))

/-- C5, at the fingerprint of `hello world` with the default asset path of a user whose home
is `/home/u`: directory `/home/u/.gitasset/data/2a/ae`, file name
`6c35c94fcfb415dbe95f408b9ce91ee846ed`. -/
theorem cachePath_layout_hello :
    cachePath ⟨ascii "~/.gitasset", true, some (ascii "/home/u"), false⟩
        (ascii "2aae6c35c94fcfb415dbe95f408b9ce91ee846ed") =
      .ok (ascii "/home/u/.gitasset/data/2a/ae", ascii "6c35c94fcfb415dbe95f408b9ce91ee846ed") :=
  (cachePath_layout ⟨ascii "~/.gitasset", true, some (ascii "/home/u"), false⟩
    (ascii "/home/u/.gitasset") (ascii "2aae6c35c94fcfb415dbe95f408b9ce91ee846ed")
    (by rfl) (by decide)).1.trans (by rfl)

/-! ## Remote put -/

theorem storeToS3_present (env : Env) (K D : Bytes) (w : World) (hb : getBucket env = .ok ())
    (hk : (w.bucket K).isSome = true) :
    storeToS3 env K D w = (.ok none, { w with s3Calls := w.s3Calls ++ [.getReader K] }) := by
  simp [storeToS3, hb, bucketGetReader, hk]

theorem storeToS3_absent (env : Env) (K D : Bytes) (w : World) (hb : getBucket env = .ok ())
    (hk : w.bucket K = none) (hp : w.putFault K = false) :
    storeToS3 env K D w =
      (.ok none, { w with bucket := fun k => if k = K then some D else w.bucket k,
                          s3Calls := w.s3Calls ++ [.getReader K] ++ [.put K] }) := by
  simp [storeToS3, hb, bucketGetReader, hk, bucketPut, hp]

/-- C3. With the bucket configured and no `Put` fault at `K`: the first `storeToS3(K, D)`
reports no error and leaves `K` present; the second one finds it present, makes the existence
check only (no `Put`), returns nil, and leaves the bucket as the first call left it.  And
whenever `K` is already present, `storeToS3` returns nil and changes nothing but the record of
calls, to which it adds the existence check. -/
theorem storeToS3_idempotent (env : Env) (K D : Bytes) (w : World)
    (hb : getBucket env = .ok ()) (hp : w.putFault K = false) :
    (storeToS3 env K D w).1 = .ok none ∧
      ((storeToS3 env K D w).2.bucket K).isSome = true ∧
      (storeToS3 env K D (storeToS3 env K D w).2).1 = .ok none ∧
      (storeToS3 env K D (storeToS3 env K D w).2).2.bucket = (storeToS3 env K D w).2.bucket ∧
      (storeToS3 env K D (storeToS3 env K D w).2).2.s3Calls =
        (storeToS3 env K D w).2.s3Calls ++ [.getReader K] ∧
      ∀ (w0 : World) (D0 : Bytes), (w0.bucket K).isSome = true →
        storeToS3 env K D0 w0 =
          (.ok none, { w0 with s3Calls := w0.s3Calls ++ [.getReader K] }) := by
  have hgen : ∀ (w0 : World) (D0 : Bytes), (w0.bucket K).isSome = true →
      storeToS3 env K D0 w0 =
        (.ok none, { w0 with s3Calls := w0.s3Calls ++ [.getReader K] }) :=
    fun w0 D0 h => storeToS3_present env K D0 w0 hb h
  have hfirst : (storeToS3 env K D w).1 = .ok none ∧
      ((storeToS3 env K D w).2.bucket K).isSome = true := by
    cases hk : w.bucket K with
    | none => rw [storeToS3_absent env K D w hb hk hp]; simp
    | some d => rw [hgen w D (by simp [hk])]; simp [hk]
  refine ⟨hfirst.1, hfirst.2, ?_, ?_, ?_, hgen⟩
  · rw [hgen _ D hfirst.2]
  · rw [hgen _ D hfirst.2]
  · rw [hgen _ D hfirst.2]

/-- C3, on an empty bucket with key `ab` and data `xyz`. -/
theorem storeToS3_idempotent_example :
    (storeToS3 ⟨ascii "/srv/assets", false, none, true⟩ (ascii "ab") (ascii "xyz")
        (storeToS3 ⟨ascii "/srv/assets", false, none, true⟩ (ascii "ab") (ascii "xyz")
          emptyWorld).2).2.bucket =
      (storeToS3 ⟨ascii "/srv/assets", false, none, true⟩ (ascii "ab") (ascii "xyz")
        emptyWorld).2.bucket :=
  (storeToS3_idempotent ⟨ascii "/srv/assets", false, none, true⟩ (ascii "ab") (ascii "xyz")
    emptyWorld (by rfl) (by rfl)).2.2.2.1

/-! ## Pass-through -/

/-- C6 as amended. When the input fails the validity check, `load` makes no call to the local
file system or to the bucket and changes neither; when the write to standard output succeeds
it appends the input unchanged to standard output and ends normally, and when that write
fails it ends with `log.Fatal`, nothing written. -/
theorem load_passthrough (env : Env) (x : Bytes) (w : World) (h : isValidHash x = false) :
    load env x w =
        (if w.stdoutFault then (.error .fatal, w)
         else (.ok (), { w with stdout := w.stdout ++ x })) ∧
      (load env x w).2.files = w.files ∧ (load env x w).2.bucket = w.bucket ∧
      (load env x w).2.fsCalls = w.fsCalls ∧ (load env x w).2.s3Calls = w.s3Calls := by
  have e : load env x w =
      (if w.stdoutFault then (.error .fatal, w)
       else (.ok (), { w with stdout := w.stdout ++ x })) := by
    simp [load, h, writeStdout]
  refine ⟨e, ?_, ?_, ?_, ?_⟩ <;> (rw [e]; cases w.stdoutFault <;> rfl)

/-- C6 as amended, at an uppercase fingerprint with a working standard output: it fails the
check and is echoed. -/
theorem load_passthrough_uppercase :
    load ⟨ascii "~/.gitasset", false, none, false⟩
        (ascii "2AAE6C35C94FCFB415DBE95F408B9CE91EE846ED") emptyWorld =
      (.ok (), { emptyWorld with
        stdout := emptyWorld.stdout ++ ascii "2AAE6C35C94FCFB415DBE95F408B9CE91EE846ED" }) :=
  (load_passthrough ⟨ascii "~/.gitasset", false, none, false⟩
    (ascii "2AAE6C35C94FCFB415DBE95F408B9CE91EE846ED") emptyWorld (by decide)).1.trans (by rfl)

/-- C6 fails as stated: the input `not a fingerprint` fails the validity check, and when the
write to standard output fails (a closed descriptor) `load` ends with `log.Fatal` and nothing
is written. -/
theorem load_passthrough_fails_on_closed_stdout :
    isValidHash (ascii "not a fingerprint") = false ∧
      (load (srvEnv false) (ascii "not a fingerprint")
        { emptyWorld with stdoutFault := true }).1 = .error .fatal ∧
      (load (srvEnv false) (ascii "not a fingerprint")
        { emptyWorld with stdoutFault := true }).2.stdout = [] := by
  refine ⟨?_, ?_, ?_⟩ <;> rfl

/-! ## Round trip -/

theorem osIsExist_lstat (path : Bytes) (w : World) : osIsExist (osLstat path w).1 = false := by
  unfold osLstat
  cases (w.files path).isSome <;> rfl

theorem storeToCache_writes (env : Env) (hex data dir fname : Bytes) (w : World)
    (hcp : cachePath env hex = .ok (dir, fname))
    (hmk : w.mkdirFault dir = false) (hwr : w.writeFault (filepathJoin [dir, fname]) = false) :
    storeToCache env hex data w =
      (.ok (), { w with
        files := fun p => if p = filepathJoin [dir, fname] then some data else w.files p,
        fsCalls := w.fsCalls ++ [.lstat (filepathJoin [dir, fname])] ++ [.mkdirAll dir] ++
          [.writeFile (filepathJoin [dir, fname])] }) := by
  have hl := osIsExist_lstat (filepathJoin [dir, fname]) w
  simp only [storeToCache, hcp]
  simp only [hl]
  simp [osLstat, osMkdirAll, hmk, ioWriteFile, hwr]

theorem getBucket_of_cachePath (env : Env) (hex : Bytes) (r : Bytes × Bytes)
    (hcp : cachePath env hex = .ok r) (hcfg : env.configOk = true) :
    getBucket env = .ok () := by
  unfold cachePath at hcp
  unfold getBucket
  cases ha : assetDir env with
  | error a => simp [ha] at hcp
  | ok root => simp [hcfg]

theorem store_ok (env : Env) (B dir fname : Bytes) (w : World)
    (hcp : cachePath env (calcSha1String B) = .ok (dir, fname))
    (hmk : w.mkdirFault dir = false)
    (hwr : w.writeFault (filepathJoin [dir, fname]) = false)
    (hout : w.stdoutFault = false)
    (hremote : env.localMode = false →
      env.configOk = true ∧ w.putFault (calcSha1String B) = false) :
    (store env B w).1 = .ok () ∧
      (store env B w).2.stdout = w.stdout ++ calcSha1String B ∧
      (store env B w).2.files (filepathJoin [dir, fname]) = some B ∧
      (store env B w).2.readFault = w.readFault ∧
      (store env B w).2.stdoutFault = false ∧
      (env.localMode = false → w.bucket (calcSha1String B) = none →
        (store env B w).2.bucket (calcSha1String B) = some B) := by
  have hsc := storeToCache_writes env (calcSha1String B) B dir fname w hcp hmk hwr
  cases hlm : env.localMode with
  | true => simp [store, hsc, hlm, writeStdout, hout]
  | false =>
    obtain ⟨hcfg, hput⟩ := hremote hlm
    have hb := getBucket_of_cachePath env _ _ hcp hcfg
    cases hk : w.bucket (calcSha1String B) with
    | none =>
      simp only [store, hsc, hlm]
      rw [storeToS3_absent env _ B _ hb (by simpa using hk) (by simpa using hput)]
      simp [writeStdout, hout]
    | some d =>
      simp only [store, hsc, hlm]
      rw [storeToS3_present env _ B _ hb (by simp [hk])]
      simp [writeStdout, hout]

theorem load_from_cache (env : Env) (h B dir fname : Bytes) (w : World)
    (hv : isValidHash h = true) (hcp : cachePath env h = .ok (dir, fname))
    (hf : w.files (filepathJoin [dir, fname]) = some B)
    (hrd : w.readFault (filepathJoin [dir, fname]) = none)
    (hout : w.stdoutFault = false) :
    load env h w = (.ok (), { w with
      fsCalls := w.fsCalls ++ [.readFile (filepathJoin [dir, fname])],
      stdout := w.stdout ++ B }) := by
  simp [load, hv, loadFromCache, hcp, ioReadFile, hf, hrd, osIsNotExist, writeStdout, hout]

theorem load_from_remote (env : Env) (h B dir fname : Bytes) (w : World)
    (hv : isValidHash h = true) (hcp : cachePath env h = .ok (dir, fname))
    (hcfg : env.configOk = true)
    (hf : w.files (filepathJoin [dir, fname]) = none)
    (hrd : w.readFault (filepathJoin [dir, fname]) = none)
    (hb : w.bucket h = some B)
    (hmk : w.mkdirFault dir = false) (hwr : w.writeFault (filepathJoin [dir, fname]) = false)
    (hout : w.stdoutFault = false) :
    (load env h w).1 = .ok () ∧ (load env h w).2.stdout = w.stdout ++ B ∧
      (load env h w).2.s3Calls = w.s3Calls ++ [.get h] ∧
      (load env h w).2.files (filepathJoin [dir, fname]) = some B := by
  have hgb := getBucket_of_cachePath env _ _ hcp hcfg
  have hsc := fun w' => storeToCache_writes env h B dir fname w' hcp
  simp only [load, hv, loadFromCache, hcp, ioReadFile, hf, hrd, osIsNotExist, loadFromS3, hgb,
    bucketGet, hb]
  simp only [Bool.not_true, Bool.false_eq_true, if_false, if_true]
  rw [hsc _ (by simpa using hmk) (by simpa using hwr)]
  simp [writeStdout, hout]

/-- C1. Let `h` be the digest of `B`, and let the asset directory resolve, the cache directory
and file be creatable, writable and readable, standard output be writable and, unless
local-only mode is on, the bucket be configured and accept a `Put` under `h`.  Then, from every
world, `store` on `B` ends normally having written `h` to standard output, `h` passes
`isValidHash`, and the cache file of `h` holds `B`; `load` on `h` in the world `store` leaves
ends normally and writes exactly `B`.  And when `store` ran with local-only mode off and the
bucket held nothing under `h`, then in any world with that bucket in which the cache file of
`h` is missing (and can be created, and standard output written), `load` on `h` asks the bucket
for the key `h`, ends normally and writes exactly `B`. -/
theorem store_load_roundtrip (env : Env) (B dir fname : Bytes) (w : World)
    (hcp : cachePath env (calcSha1String B) = .ok (dir, fname))
    (hmk : w.mkdirFault dir = false)
    (hwr : w.writeFault (filepathJoin [dir, fname]) = false)
    (hrd : w.readFault (filepathJoin [dir, fname]) = none)
    (hout : w.stdoutFault = false)
    (hremote : env.localMode = false →
      env.configOk = true ∧ w.putFault (calcSha1String B) = false) :
    ((store env B w).1 = .ok () ∧
      (store env B w).2.stdout = w.stdout ++ calcSha1String B ∧
      isValidHash (calcSha1String B) = true ∧
      (store env B w).2.files (filepathJoin [dir, fname]) = some B) ∧
    ((load env (calcSha1String B) (store env B w).2).1 = .ok () ∧
      (load env (calcSha1String B) (store env B w).2).2.stdout =
        (store env B w).2.stdout ++ B) ∧
    (env.localMode = false → w.bucket (calcSha1String B) = none →
      ∀ (env2 : Env) (dir2 fname2 : Bytes) (w2 : World),
        cachePath env2 (calcSha1String B) = .ok (dir2, fname2) →
        env2.configOk = true →
        w2.bucket = (store env B w).2.bucket →
        w2.files (filepathJoin [dir2, fname2]) = none →
        w2.readFault (filepathJoin [dir2, fname2]) = none →
        w2.mkdirFault dir2 = false →
        w2.writeFault (filepathJoin [dir2, fname2]) = false →
        w2.stdoutFault = false →
        (load env2 (calcSha1String B) w2).1 = .ok () ∧
          (load env2 (calcSha1String B) w2).2.stdout = w2.stdout ++ B ∧
          (load env2 (calcSha1String B) w2).2.s3Calls =
            w2.s3Calls ++ [.get (calcSha1String B)]) := by
  have hv := calcSha1String_valid B
  obtain ⟨h1, h2, h3, h4, h4b, h5⟩ := store_ok env B dir fname w hcp hmk hwr hout hremote
  refine ⟨⟨h1, h2, hv, h3⟩, ?_, ?_⟩
  · rw [load_from_cache env _ B dir fname _ hv hcp h3 (by rw [h4]; exact hrd) h4b]
    exact ⟨rfl, rfl⟩
  · intro hlm hk env2 dir2 fname2 w2 hcp2 hcfg2 hbk hf2 hrd2 hmk2 hwr2 hout2
    have hb2 : w2.bucket (calcSha1String B) = some B := by rw [hbk]; exact h5 hlm hk
    obtain ⟨r1, r2, r3, _⟩ :=
      load_from_remote env2 _ B dir2 fname2 w2 hv hcp2 hcfg2 hf2 hrd2 hb2 hmk2 hwr2 hout2
    exact ⟨r1, r2, r3⟩

/-- C1, at `hello world` from the empty world with local-only mode off: `load` writes
`hello world` in the world `store` leaves, and also in a world without any file whose bucket
is the one `store` filled. -/
theorem store_load_roundtrip_hello :
    (load (srvEnv false) (calcSha1String (ascii "hello world"))
        (store (srvEnv false) (ascii "hello world") emptyWorld).2).2.stdout =
      (store (srvEnv false) (ascii "hello world") emptyWorld).2.stdout ++ ascii "hello world" ∧
    (load (srvEnv false) (calcSha1String (ascii "hello world"))
        { emptyWorld with
          bucket := (store (srvEnv false) (ascii "hello world") emptyWorld).2.bucket }).2.stdout =
      ascii "hello world" :=
  ⟨(store_load_roundtrip (srvEnv false) (ascii "hello world") (ascii "/srv/assets/data/2a/ae")
      (ascii "6c35c94fcfb415dbe95f408b9ce91ee846ed") emptyWorld
      (by rfl) (by rfl) (by rfl) (by rfl) (by rfl) (fun _ => ⟨rfl, rfl⟩)).2.1.2,
    ((store_load_roundtrip (srvEnv false) (ascii "hello world") (ascii "/srv/assets/data/2a/ae")
      (ascii "6c35c94fcfb415dbe95f408b9ce91ee846ed") emptyWorld
      (by rfl) (by rfl) (by rfl) (by rfl) (by rfl) (fun _ => ⟨rfl, rfl⟩)).2.2 rfl (by rfl)
      (srvEnv false) (ascii "/srv/assets/data/2a/ae")
      (ascii "6c35c94fcfb415dbe95f408b9ce91ee846ed")
      { emptyWorld with
        bucket := (store (srvEnv false) (ascii "hello world") emptyWorld).2.bucket }
      (by rfl) rfl rfl rfl rfl rfl rfl rfl).2.1⟩

/-! ## The walker -/

theorem filesBeforeError_append (a b : List Visit) :
    filesBeforeError (a ++ b) =
      if (firstError a).isSome then filesBeforeError a
      else filesBeforeError a ++ filesBeforeError b := by
  induction a with
  | nil => simp [filesBeforeError, firstError]
  | cons v vs ih =>
    cases he : v.err with
    | some e => simp [filesBeforeError, firstError, he]
    | none =>
      by_cases hd : v.isDir
      · simp [filesBeforeError, firstError, he, hd, ih]
      · have hd2 : v.isDir = false := by simpa using hd
        have e1 : filesBeforeError (v :: vs ++ b) = v.path :: filesBeforeError (vs ++ b) := by
          simp [filesBeforeError, he, hd2]
        have e2 : filesBeforeError (v :: vs) = v.path :: filesBeforeError vs := by
          simp [filesBeforeError, he, hd2]
        have e3 : firstError (v :: vs) = firstError vs := by
          simp [firstError, he]
        rw [e1, e2, e3, ih]
        split <;> simp

theorem firstError_append (a b : List Visit) :
    firstError (a ++ b) = if (firstError a).isSome then firstError a else firstError b := by
  induction a with
  | nil => simp [firstError]
  | cons v vs ih =>
    cases he : v.err with
    | some e => simp [firstError, he]
    | none => simp [firstError, he, ih]

mutual
theorem walkNode_record (path : Bytes) (node : Node) (seen : List Visit) :
    walkNode recordFn path node seen =
      (.ret none, seen ++ (walkNode recordFn path node []).2) := by
  cases node with
  | file => simp [walkNode, recordFn]
  | bad err => simp [walkNode, recordFn]
  | dir listErr children =>
    cases listErr with
    | some e => simp [walkNode, recordFn]
    | none =>
      simp only [walkNode, recordFn, Option.isSome_none, Bool.or_self, Bool.false_eq_true,
        if_false, List.nil_append]
      rw [walkChildren_record path children (seen ++ [(⟨path, true, none⟩ : Visit)]),
        walkChildren_record path children [(⟨path, true, none⟩ : Visit)]]
      simp
theorem walkChildren_record (path : Bytes) (children : Children) (seen : List Visit) :
    walkChildren recordFn path children seen =
      (.ret none, seen ++ (walkChildren recordFn path children []).2) := by
  cases children with
  | nil => simp [walkChildren]
  | cons name node rest =>
    simp only [walkChildren]
    rw [walkNode_record (filepathJoin [path, name]) node seen,
      walkNode_record (filepathJoin [path, name]) node []]
    simp only [List.nil_append]
    rw [walkChildren_record path rest (seen ++ _),
      walkChildren_record path rest (walkNode recordFn (filepathJoin [path, name]) node []).2]
    simp
end

theorem walkerAfter_nil (sent : List Bytes) (rc : Option Nat) (fe : Option GoError) :
    walkerAfter sent [] rc fe = (.ret fe, ⟨sent, rc, none⟩) := by
  cases rc with
  | none => simp [walkerAfter]
  | some c => simp [walkerAfter]

theorem walkerAfter_single (sent : List Bytes) (rc : Option Nat) (path : Bytes) :
    walkFilesFn path false none ⟨sent, rc, none⟩ = walkerAfter sent [path] rc none := by
  cases rc with
  | none => simp [walkFilesFn, walkerAfter]
  | some c =>
    cases c with
    | zero => simp [walkFilesFn, walkerAfter]
    | succ k => simp [walkFilesFn, walkerAfter]

/-- Going through `fs1` and then, if that did not end the traversal, through `fs2`. -/
theorem walkerAfter_append (sent fs1 fs2 : List Bytes) (rc : Option Nat)
    (fe : Option GoError) (next : Walker → Reply × Walker)
    (hnext : ∀ sent2 rc2, next ⟨sent2, rc2, none⟩ = walkerAfter sent2 fs2 rc2 fe) :
    (match walkerAfter sent fs1 rc none with
      | (.ret none, s1) => next s1
      | (r, s1) => (r, s1)) = walkerAfter sent (fs1 ++ fs2) rc fe := by
  cases rc with
  | none => simp [walkerAfter, hnext]
  | some c =>
    by_cases h1 : fs1.length ≤ c
    · simp only [walkerAfter, h1, if_true, hnext, List.length_append]
      by_cases h2 : fs2.length ≤ c - fs1.length
      · have h3 : fs1.length + fs2.length ≤ c := by omega
        simp only [h2, h3, if_true, List.append_assoc]
        congr 3
        omega
      · have h3 : ¬ fs1.length + fs2.length ≤ c := by omega
        simp only [h2, h3, if_false]
        rw [List.take_append_eq_append_take, List.take_of_length_le h1,
          List.getD_append_right _ _ _ _ h1]
        simp
    · have h3 : ¬ fs1.length + fs2.length ≤ c := by omega
      have h4 : c < fs1.length := by omega
      simp only [walkerAfter, h1, if_false, List.length_append, h3]
      rw [List.take_append_of_le_length (by omega), List.getD_append _ _ _ _ h4]

mutual
theorem walkNode_walkFilesFn (path : Bytes) (node : Node) (sent : List Bytes)
    (rc : Option Nat) :
    walkNode walkFilesFn path node ⟨sent, rc, none⟩ =
      walkerAfter sent (filesBeforeError (walkNode recordFn path node []).2) rc
        (firstError (walkNode recordFn path node []).2) := by
  cases node with
  | file =>
    simp only [walkNode, recordFn, List.nil_append, filesBeforeError, firstError]
    exact walkerAfter_single sent rc path
  | bad err =>
    simp [walkNode, recordFn, walkFilesFn, firstError, filesBeforeError, walkerAfter_nil]
  | dir listErr children =>
    cases listErr with
    | some e =>
      simp [walkNode, recordFn, walkFilesFn, firstError, filesBeforeError, walkerAfter_nil]
    | none =>
      simp only [walkNode, recordFn, walkFilesFn, Option.isSome_none, Bool.or_self,
        Bool.false_eq_true, if_false, if_true, List.nil_append]
      rw [walkChildren_walkFilesFn path children sent rc,
        walkChildren_record path children [(⟨path, true, none⟩ : Visit)]]
      simp [firstError, filesBeforeError]
theorem walkChildren_walkFilesFn (path : Bytes) (children : Children) (sent : List Bytes)
    (rc : Option Nat) :
    walkChildren walkFilesFn path children ⟨sent, rc, none⟩ =
      walkerAfter sent (filesBeforeError (walkChildren recordFn path children []).2) rc
        (firstError (walkChildren recordFn path children []).2) := by
  cases children with
  | nil => simp [walkChildren, firstError, filesBeforeError, walkerAfter_nil]
  | cons name node rest =>
    simp only [walkChildren]
    rw [walkNode_walkFilesFn (filepathJoin [path, name]) node sent rc,
      walkNode_record (filepathJoin [path, name]) node []]
    simp only [List.nil_append]
    rw [walkChildren_record path rest (walkNode recordFn (filepathJoin [path, name]) node []).2]
    simp only [firstError_append, filesBeforeError_append]
    cases hfe : firstError (walkNode recordFn (filepathJoin [path, name]) node []).2 with
    | some e =>
      simp only [Option.isSome_some, if_true]
      cases rc with
      | none => simp [walkerAfter]
      | some c =>
        by_cases h1 :
            (filesBeforeError (walkNode recordFn (filepathJoin [path, name]) node []).2).length ≤ c
        · simp [walkerAfter, h1]
        · simp [walkerAfter, h1]
    | none =>
      simp only [Option.isSome_none, Bool.false_eq_true, if_false]
      have key := walkerAfter_append sent
        (filesBeforeError (walkNode recordFn (filepathJoin [path, name]) node []).2)
        (filesBeforeError (walkChildren recordFn path rest []).2) rc
        (firstError (walkChildren recordFn path rest []).2)
        (walkChildren walkFilesFn path rest)
        (fun sent2 rc2 => walkChildren_walkFilesFn path rest sent2 rc2)
      rw [← key]
      cases walkerAfter sent
        (filesBeforeError (walkNode recordFn (filepathJoin [path, name]) node []).2) rc none with
      | mk r s1 =>
        cases r with
        | ret err => cases err <;> rfl
        | hang => rfl
        | abort a => rfl
end

theorem walkFiles_eq (root : Bytes) (tree : Node) (receives : Option Nat) :
    walkFiles root tree receives =
      match receives with
      | none => ⟨filesBeforeError (visits root tree), none, some (firstError (visits root tree))⟩
      | some k =>
        if (filesBeforeError (visits root tree)).length ≤ k then
          ⟨filesBeforeError (visits root tree), none, some (firstError (visits root tree))⟩
        else
          ⟨(filesBeforeError (visits root tree)).take k,
            some ((filesBeforeError (visits root tree)).getD k []), none⟩ := by
  unfold walkFiles visits filepathWalk
  rw [walkNode_walkFilesFn]
  cases receives with
  | none => simp [walkerAfter]
  | some k =>
    by_cases h1 : (filesBeforeError (walkNode recordFn root tree []).2).length ≤ k
    · simp [walkerAfter, h1]
    · simp [walkerAfter, h1]

theorem firstError_eq_none_iff (vs : List Visit) :
    firstError vs = none ↔ ∀ v ∈ vs, v.err = none := by
  induction vs with
  | nil => simp [firstError]
  | cons v vs ih =>
    cases he : v.err with
    | some e => simp [firstError, he]
    | none => simp [firstError, he, ih]

theorem filesBeforeError_of_no_error (vs : List Visit) (h : ∀ v ∈ vs, v.err = none) :
    filesBeforeError vs = (vs.filter (fun v => !v.isDir)).map Visit.path := by
  induction vs with
  | nil => rfl
  | cons v vs ih =>
    have hv : v.err = none := h v (by simp)
    have ih2 := ih (fun u hu => h u (by simp [hu]))
    cases hd : v.isDir <;> simp [filesBeforeError, hv, hd, ih2]

/-- With every send received, `walkFiles` sends exactly the regular files that a complete
traversal of the tree meets before the first entry reporting an error, and its terminal error
is that entry's error (nil when there is none).  With `k` receives it does the same when there
are at most `k` such files; otherwise it sends the first `k` of them, then waits for ever at
the send of the next one, and sends no terminal error. -/
theorem walkFiles_run (root : Bytes) (tree : Node) (receives : Option Nat) :
    walkFiles root tree receives =
      match receives with
      | none => ⟨filesBeforeError (visits root tree), none, some (firstError (visits root tree))⟩
      | some k =>
        if (filesBeforeError (visits root tree)).length ≤ k then
          ⟨filesBeforeError (visits root tree), none, some (firstError (visits root tree))⟩
        else
          ⟨(filesBeforeError (visits root tree)).take k,
            some ((filesBeforeError (visits root tree)).getD k []), none⟩ :=
  walkFiles_eq root tree receives

/-! ## Where the code departs from its description -/

/-- C2. The cache file of `hello world` exists with other content; `storeToCache` of the
fingerprint and `hello world` stats the file, then creates the directory and writes the file:
the content is replaced. -/
theorem storeToCache_overwrites_existing :
    (helloCached (ascii "old")).files helloPath = some (ascii "old") ∧
      (storeToCache (srvEnv true) helloHash (ascii "hello world")
        (helloCached (ascii "old"))).2.files helloPath = some (ascii "hello world") ∧
      (storeToCache (srvEnv true) helloHash (ascii "hello world")
        (helloCached (ascii "old"))).2.fsCalls =
        [.lstat helloPath, .mkdirAll (ascii "/srv/assets/data/2a/ae"), .writeFile helloPath] := by
  refine ⟨?_, ?_, ?_⟩ <;> decide

/-- C7. With local-only mode on: `load` of a valid fingerprint that is missing from the cache
asks the bucket for it and writes what the bucket holds; `ParallelUpload` checks the bucket for
the cached object and puts it there. -/
theorem localMode_load_and_upload_use_bucket :
    ((load (srvEnv true) helloHash helloRemote).2.s3Calls = [.get helloHash] ∧
      (load (srvEnv true) helloHash helloRemote).2.stdout = ascii "hello world") ∧
    ((helloCached (ascii "hello world")).bucket helloHash = none ∧
      (ParallelUpload (srvEnv true) 1 oneObjectTree
        (helloCached (ascii "hello world"))).world.s3Calls =
        [.getReader helloHash, .put helloHash] ∧
      (ParallelUpload (srvEnv true) 1 oneObjectTree
        (helloCached (ascii "hello world"))).world.bucket helloHash =
        some (ascii "hello world")) := by
  refine ⟨⟨?_, ?_⟩, ?_, ?_, ?_⟩ <;> decide

/-- C8. Below `/srv/assets/data` the shard directory `2a` cannot be read and the cache file of
the empty object lies under `da/39`.  `walkFiles` returns the error of `2a` to `Walk`: the
traversal ends there, the cache file is never offered, and the terminal error is the error of
`2a`, which `ParallelUpload` returns without a single result or bucket call.  The sequential
`upload` skips `2a` on the same tree and puts the cache file to the bucket. -/
theorem walkFiles_unreadable_dir_aborts :
    walkFiles (ascii "/srv/assets/data") unreadableShardTree none =
        ⟨[], none, some (some .osPermission)⟩ ∧
      ((ParallelUpload (srvEnv false) 1 unreadableShardTree twoCached).finish =
          .returned (some .osPermission) ∧
        (ParallelUpload (srvEnv false) 1 unreadableShardTree twoCached).results = [] ∧
        (ParallelUpload (srvEnv false) 1 unreadableShardTree twoCached).world.s3Calls = []) ∧
      ((upload (srvEnv false) unreadableShardTree twoCached).2.s3Calls =
          [.getReader emptyHash, .put emptyHash] ∧
        (upload (srvEnv false) unreadableShardTree twoCached).2.bucket emptyHash = some []) := by
  refine ⟨?_, ⟨?_, ?_, ?_⟩, ?_, ?_⟩ <;> decide

/-- C9. The walker offers the cache file of `hello world`, which cannot be read, and then the
cache file of the empty object.  The worker emits the error result of the first path and
returns: the second path is not taken, no result is emitted for it and the bucket is never
called; with one worker the walker waits for ever at the send of the second path and
`ParallelUpload` is left with no goroutine that can proceed. -/
theorem pathToS3_returns_at_unreadable_file :
    (walkFiles (ascii "/srv/assets/data") twoObjectTree none).sent = [helloPath, emptyPath] ∧
      (pathToS3 (srvEnv false) [helloPath, emptyPath] helloUnreadable).results =
        [⟨helloPath, [], some .osPermission⟩] ∧
      (pathToS3 (srvEnv false) [helloPath, emptyPath] helloUnreadable).rest = [emptyPath] ∧
      (pathToS3 (srvEnv false) [helloPath, emptyPath] helloUnreadable).world.s3Calls = [] ∧
      walkFiles (ascii "/srv/assets/data") twoObjectTree (some 1) =
        ⟨[helloPath], some emptyPath, none⟩ ∧
      (ParallelUpload (srvEnv false) 1 twoObjectTree helloUnreadable).finish = .deadlock ∧
      (ParallelUpload (srvEnv false) 1 twoObjectTree helloUnreadable).results =
        [⟨helloPath, [], some .osPermission⟩] := by
  refine ⟨?_, ?_, ?_, ?_, ?_, ?_, ?_⟩ <;> decide

/-- C10. For the asset paths `.`, `/` and the empty string, `assetDir` panics on the slice
expression `p[0:2]`. -/
theorem assetDir_panics_on_short_path :
    assetDir ⟨ascii ".", false, some (ascii "/home/u"), true⟩ = .error .panic ∧
      assetDir ⟨ascii "/", false, some (ascii "/home/u"), true⟩ = .error .panic ∧
      assetDir ⟨ascii "", false, some (ascii "/home/u"), true⟩ = .error .panic := by
  refine ⟨?_, ?_, ?_⟩ <;> rfl

/-! ## Further properties of the operations -/

theorem storeToCache_bucket (env : Env) (hex data : Bytes) (w : World) :
    (storeToCache env hex data w).2.bucket = w.bucket ∧
      (storeToCache env hex data w).2.s3Calls = w.s3Calls := by
  cases hcp : cachePath env hex with
  | error a => simp [storeToCache, hcp]
  | ok r =>
    obtain ⟨dirpath, filename⟩ := r
    have hl := osIsExist_lstat (filepathJoin [dirpath, filename]) w
    simp only [storeToCache, hcp]
    simp only [hl]
    cases h1 : w.mkdirFault dirpath with
    | true => simp [osLstat, osMkdirAll, h1]
    | false =>
      cases h2 : w.writeFault (filepathJoin [dirpath, filename]) with
      | true => simp [osLstat, osMkdirAll, h1, ioWriteFile, h2]
      | false => simp [osLstat, osMkdirAll, h1, ioWriteFile, h2]

theorem writeStdout_bucket (contents : Bytes) (w : World) :
    (writeStdout contents w).2.bucket = w.bucket ∧
      (writeStdout contents w).2.s3Calls = w.s3Calls := by
  unfold writeStdout
  cases w.stdoutFault <;> simp

/-- With local-only mode on, `store` makes no bucket call and leaves the bucket as it was,
whatever the input and the world, and however the operation ends. -/
theorem store_localMode_skips_bucket (env : Env) (B : Bytes) (w : World)
    (hl : env.localMode = true) :
    (store env B w).2.bucket = w.bucket ∧ (store env B w).2.s3Calls = w.s3Calls := by
  have h := storeToCache_bucket env (calcSha1String B) B w
  unfold store
  simp only [hl]
  generalize storeToCache env (calcSha1String B) B w = r at h
  obtain ⟨r1, w1⟩ := r
  cases r1 with
  | error a => simpa using h
  | ok u =>
    have h2 := writeStdout_bucket (calcSha1String B) w1
    simp only at h
    simp only [Bool.not_true, Bool.false_eq_true, if_false]
    rw [h2.1, h2.2]
    exact h

/-- Local-only `store` of `hello world` from the empty world. -/
theorem store_localMode_skips_bucket_hello :
    (store (srvEnv true) (ascii "hello world") emptyWorld).2.bucket = emptyWorld.bucket ∧
      (store (srvEnv true) (ascii "hello world") emptyWorld).2.s3Calls = emptyWorld.s3Calls :=
  store_localMode_skips_bucket (srvEnv true) (ascii "hello world") emptyWorld rfl

/-- For an asset path of at least two bytes `assetDir` does not panic: a path that starts with
`~/` resolves to the home directory joined with the rest (and is fatal when the current user
cannot be looked up), and any other path is returned unchanged. -/
theorem assetDir_of_two_bytes (env : Env) (h : 2 ≤ env.assetDirPath.length) :
    assetDir env =
      if env.assetDirPath.take 2 = ascii "~/" then
        match env.homeDir with
        | none => .error .fatal
        | some home => .ok (filepathJoin [home, env.assetDirPath.drop 2])
      else .ok env.assetDirPath := by
  unfold assetDir
  simp only [slice, sliceFrom, h, Nat.zero_le, and_self, if_true, List.drop_zero, Nat.sub_zero]

/-- The default asset path of a user whose home is `/home/u`. -/
theorem assetDir_of_two_bytes_default :
    assetDir ⟨ascii "~/.gitasset", false, some (ascii "/home/u"), true⟩ =
      .ok (ascii "/home/u/.gitasset") :=
  (assetDir_of_two_bytes ⟨ascii "~/.gitasset", false, some (ascii "/home/u"), true⟩
    (by decide)).trans (by rfl)

theorem storeToS3_files (env : Env) (K D : Bytes) (w : World) :
    (storeToS3 env K D w).2.files = w.files ∧
      (storeToS3 env K D w).2.readFault = w.readFault := by
  unfold storeToS3
  cases getBucket env with
  | error a => simp
  | ok u =>
    cases hk : (w.bucket K).isSome with
    | true => simp [bucketGetReader, hk]
    | false =>
      cases hp : w.putFault K with
      | true => simp [bucketGetReader, hk, bucketPut, hp]
      | false => simp [bucketGetReader, hk, bucketPut, hp]

theorem storeToS3_no_abort (env : Env) (K D : Bytes) (w : World) (hb : getBucket env = .ok ()) :
    ∃ err, (storeToS3 env K D w).1 = .ok err := by
  unfold storeToS3
  simp only [hb]
  cases hk : (w.bucket K).isSome with
  | true => exact ⟨none, by simp [bucketGetReader, hk]⟩
  | false => exact ⟨(bucketPut K D (bucketGetReader K w).2).1, by simp [bucketGetReader, hk]⟩

/-- When the bucket is configured and every path offered to a worker can be read, the worker
takes every path and emits one Sync Result per path, in order, each carrying the path and the
fingerprint recomputed from the bytes of the file; an error of the remote put is carried in
the result and does not stop the worker. -/
theorem pathToS3_all_readable (env : Env) (paths : List Bytes) (w : World)
    (hb : getBucket env = .ok ())
    (hr : ∀ p ∈ paths, (w.files p).isSome = true ∧ w.readFault p = none) :
    (pathToS3 env paths w).abort = none ∧ (pathToS3 env paths w).rest = [] ∧
      (pathToS3 env paths w).results.map (fun r => (r.path, r.hash)) =
        paths.map (fun p => (p, calcSha1String ((w.files p).getD []))) := by
  induction paths generalizing w with
  | nil => simp [pathToS3]
  | cons p ps ih =>
    obtain ⟨hsome, hrf⟩ := hr p (by simp)
    obtain ⟨data, hdata⟩ := Option.isSome_iff_exists.mp hsome
    obtain ⟨err, herr⟩ := storeToS3_no_abort env (calcSha1String data) data
      { w with fsCalls := w.fsCalls ++ [.readFile p] } hb
    have hfr := storeToS3_files env (calcSha1String data) data
      { w with fsCalls := w.fsCalls ++ [.readFile p] }
    have hstep : pathToS3 env (p :: ps) w =
        ⟨⟨p, calcSha1String data, err⟩ ::
            (pathToS3 env ps (storeToS3 env (calcSha1String data) data
              { w with fsCalls := w.fsCalls ++ [.readFile p] }).2).results,
          (pathToS3 env ps (storeToS3 env (calcSha1String data) data
              { w with fsCalls := w.fsCalls ++ [.readFile p] }).2).rest,
          (pathToS3 env ps (storeToS3 env (calcSha1String data) data
              { w with fsCalls := w.fsCalls ++ [.readFile p] }).2).abort,
          (pathToS3 env ps (storeToS3 env (calcSha1String data) data
              { w with fsCalls := w.fsCalls ++ [.readFile p] }).2).world⟩ := by
      rw [pathToS3]
      simp only [ioReadFile, hdata, hrf]
      generalize hs : storeToS3 env (calcSha1String data) data
        { w with fsCalls := w.fsCalls ++ [.readFile p] } = s at herr
      obtain ⟨s1, s2⟩ := s
      simp only at herr
      subst herr
      rfl
    have ih2 := ih (storeToS3 env (calcSha1String data) data
        { w with fsCalls := w.fsCalls ++ [.readFile p] }).2 (by
      intro q hq
      rw [hfr.1, hfr.2]
      exact hr q (by simp [hq]))
    rw [hstep]
    refine ⟨ih2.1, ih2.2.1, ?_⟩
    simp only [List.map_cons, hdata, Option.getD_some]
    rw [ih2.2.2, hfr.1]

/-- A worker on the two cache files, both readable. -/
theorem pathToS3_all_readable_example :
    (pathToS3 (srvEnv false) [helloPath, emptyPath] twoCached).results.map
        (fun r => (r.path, r.hash)) =
      [helloPath, emptyPath].map (fun p => (p, calcSha1String ((twoCached.files p).getD []))) :=
  (pathToS3_all_readable (srvEnv false) [helloPath, emptyPath] twoCached
    (by rfl) (by decide)).2.2

/-- When `ParallelUpload` returns, it returns the error of the first entry of the tree for
which the traversal reports one, nil when there is none. -/
theorem ParallelUpload_returns_walk_error (env : Env) (parallel : Int) (tree : Node)
    (w : World) (dir : Bytes) (e : Option GoError) (hd : assetDir env = .ok dir)
    (hf : (ParallelUpload env parallel tree w).finish = .returned e) :
    e = firstError (visits (filepathJoin [dir, ascii "data"]) tree) := by
  unfold ParallelUpload at hf
  simp only [hd] at hf
  split at hf
  · simp at hf
  · split at hf
    · simp at hf
    · rename_i hab
      rw [walkFiles_eq] at hf
      simp only at hf
      split at hf
      · rename_i err herr
        split at herr
        · simp only [Option.some.injEq] at herr
          simp only [Finish.returned.injEq] at hf
          rw [← hf, ← herr]
        · simp at herr
      · simp at hf

/-- The unreadable shard directory under `/srv/assets/data`, with one worker. -/
theorem ParallelUpload_returns_walk_error_example :
    some GoError.osPermission =
      firstError (visits (filepathJoin [ascii "/srv/assets", ascii "data"])
        unreadableShardTree) :=
  ParallelUpload_returns_walk_error (srvEnv false) 1 unreadableShardTree twoCached
    (ascii "/srv/assets") (some .osPermission) (by rfl) (by decide)

/-- The concrete scenario: `store` of the 11 bytes `hello world` in local-only mode from the
empty world ends normally, writes the fingerprint `2aae6c35c94fcfb415dbe95f408b9ce91ee846ed`
to standard output, leaves a file with exactly those bytes at
`data/2a/ae/6c35c94fcfb415dbe95f408b9ce91ee846ed` under the asset directory, and makes no
bucket call. -/
theorem store_hello_world_local :
    calcSha1String (ascii "hello world") = helloHash ∧
      (store (srvEnv true) (ascii "hello world") emptyWorld).2.stdout = helloHash ∧
      (store (srvEnv true) (ascii "hello world") emptyWorld).2.files helloPath =
        some (ascii "hello world") ∧
      (store (srvEnv true) (ascii "hello world") emptyWorld).2.s3Calls = [] ∧
      (ascii "hello world").length = 11 := by
  refine ⟨?_, ?_, ?_, ?_, ?_⟩ <;> decide

/-- The digest agrees with the published SHA-1 test vectors for the empty message, `abc`, and
a message of 200 bytes (four blocks once padded). -/
theorem calcSha1String_test_vectors :
    calcSha1String [] = ascii "da39a3ee5e6b4b0d3255bfef95601890afd80709" ∧
      calcSha1String (ascii "abc") = ascii "a9993e364706816aba3e25717850c26c9cd0d89d" ∧
      calcSha1String (List.replicate 200 97) =
        ascii "e61cfffe0d9195a525fc6cf06ca2d77119c24a40" := by
  refine ⟨?_, ?_, ?_⟩ <;> decide

end Gits3
